import Mathlib

/-!
Verification of the order-of-accuracy core of `pfhub/main.py`.

The embedding follows the source: a tidy table is a list of rows carrying the
two coordinates, the field value, the simulation-series name and the
resolution (`data_set`) label; `make_grid` models `np.mgrid` with complex
(point-count) steps; `interp` models `scipy.interpolate.griddata` with
`method="cubic"` and `fill_value=0.0`; `order_of_accuracy_values_` models the
grouping, row-count-descending sort, norm and effective-spacing computation.
Machine floats are modelled by exact rationals, with `Real.sqrt` at the two
places the source calls `np.sqrt`.
-/

namespace PFHub

/-- One row of the tidy table consumed by the analyzer: two coordinates, one
scalar field value, the simulation-series name and the resolution label. -/
structure Row where
  x : ℚ
  y : ℚ
  z : ℚ
  sim_name : String
  data_set : ℕ
deriving DecidableEq, Repr

/-- The `keys` argument of the source selects three numeric columns; a column
of a dataframe is modelled as a projection out of a row. -/
structure Keys where
  kx : Row → ℚ
  ky : Row → ℚ
  kz : Row → ℚ

/-- The usual column choice `['x', 'y', 'z']`. -/
def keysXYZ : Keys := ⟨Row.x, Row.y, Row.z⟩

/-- One axis of `np.mgrid[a:b:n*1j]`: `n` points from `a` to `b` inclusive,
`arange(0, n) * step + a` with `step = (b - a) / (n - 1)`; a single point is
just `a`. -/
def linspace (a b : ℚ) (n : ℕ) : List ℚ :=
  if n ≤ 1 then List.replicate n a
  else (List.range n).map fun (i : ℕ) => (i : ℚ) * ((b - a) / ((n : ℚ) - 1)) + a

/-- The source's `make_grid(stepsx, stepsy)`: the two `np.mgrid` coordinate
arrays, each of shape `(n_x, n_y)`; `grid_x[i][j] = xs[i]` and
`grid_y[i][j] = ys[j]`. A steps argument `([low, high], n)` is modelled as
`((low, high), n)`. -/
def make_grid (stepsx stepsy : (ℚ × ℚ) × ℕ) : List (List ℚ) × List (List ℚ) :=
  let xs := linspace stepsx.1.1 stepsx.1.2 stepsx.2
  let ys := linspace stepsy.1.1 stepsy.1.2 stepsy.2
  (xs.map fun xv => ys.map fun _ => xv, xs.map fun _ => ys)

theorem linspace_length (a b : ℚ) (n : ℕ) : (linspace a b n).length = n := by
  unfold linspace
  split
  · rw [List.length_replicate]
  · rw [List.length_map, List.length_range]

theorem zero_mem_linspace (a b : ℚ) {n : ℕ} (hn : 2 ≤ n) : a ∈ linspace a b n := by
  unfold linspace
  rw [if_neg (show ¬n ≤ 1 by omega)]
  refine List.mem_map.mpr ⟨0, List.mem_range.mpr (by omega), by simp⟩

theorem last_mem_linspace (a b : ℚ) {n : ℕ} (hn : 2 ≤ n) : b ∈ linspace a b n := by
  unfold linspace
  rw [if_neg (show ¬n ≤ 1 by omega)]
  refine List.mem_map.mpr ⟨n - 1, List.mem_range.mpr (by omega), ?_⟩
  have h1 : ((n : ℚ) - 1) ≠ 0 := by
    have : (2 : ℚ) ≤ (n : ℚ) := by exact_mod_cast hn
    linarith
  have h2 : ((n - 1 : ℕ) : ℚ) = (n : ℚ) - 1 := by
    have : (1 : ℕ) ≤ n := by omega
    push_cast [this]
    ring
  rw [h2]
  field_simp

/-- C8 counterexample: `n = m = 1` is a pair of positive point counts, yet the
x-coordinate array of `make_grid (([0,1]), 1) (([0,1]), 1)` holds the single
value 0, so its values do not include the endpoint 1. -/
theorem make_grid_one_point_misses_endpoint :
    (make_grid ((0, 1), 1) ((0, 1), 1)).1 = [[0]] ∧
      ¬(1 : ℚ) ∈ (make_grid ((0, 1), 1) ((0, 1), 1)).1.flatten := by
  decide

/-- C8 (amended: point counts at least 2, not merely positive): building the
grid with `stepsx = ([0,1], n)` and `stepsy = ([0,1], m)` yields two coordinate
arrays each of shape `(n, m)`, the x-coordinate array's values include the
endpoints exactly 0 and 1, and the y-coordinate array's values include the
endpoints exactly 0 and 1. -/
theorem make_grid_shape_endpoints (n m : ℕ) (hn : 2 ≤ n) (hm : 2 ≤ m) :
    ((make_grid ((0, 1), n) ((0, 1), m)).1.length = n ∧
      ∀ row ∈ (make_grid ((0, 1), n) ((0, 1), m)).1, row.length = m) ∧
    ((make_grid ((0, 1), n) ((0, 1), m)).2.length = n ∧
      ∀ row ∈ (make_grid ((0, 1), n) ((0, 1), m)).2, row.length = m) ∧
    ((0 : ℚ) ∈ (make_grid ((0, 1), n) ((0, 1), m)).1.flatten ∧
      (1 : ℚ) ∈ (make_grid ((0, 1), n) ((0, 1), m)).1.flatten) ∧
    ((0 : ℚ) ∈ (make_grid ((0, 1), n) ((0, 1), m)).2.flatten ∧
      (1 : ℚ) ∈ (make_grid ((0, 1), n) ((0, 1), m)).2.flatten) := by
  have hx0 : (0 : ℚ) ∈ linspace 0 1 n := zero_mem_linspace 0 1 hn
  have hx1 : (1 : ℚ) ∈ linspace 0 1 n := last_mem_linspace 0 1 hn
  have hy0 : (0 : ℚ) ∈ linspace 0 1 m := zero_mem_linspace 0 1 hm
  have hy1 : (1 : ℚ) ∈ linspace 0 1 m := last_mem_linspace 0 1 hm
  refine ⟨⟨?_, ?_⟩, ⟨?_, ?_⟩, ⟨?_, ?_⟩, ⟨?_, ?_⟩⟩
  · simp [make_grid, linspace_length]
  · intro row hrow
    simp only [make_grid, List.mem_map] at hrow
    obtain ⟨xv, _, rfl⟩ := hrow
    simp [linspace_length]
  · simp [make_grid, linspace_length]
  · intro row hrow
    simp only [make_grid, List.mem_map] at hrow
    obtain ⟨xv, _, rfl⟩ := hrow
    simp [linspace_length]
  · exact List.mem_flatten.mpr
      ⟨(linspace 0 1 m).map fun _ => (0 : ℚ),
        List.mem_map.mpr ⟨0, hx0, rfl⟩, List.mem_map.mpr ⟨0, hy0, rfl⟩⟩
  · exact List.mem_flatten.mpr
      ⟨(linspace 0 1 m).map fun _ => (1 : ℚ),
        List.mem_map.mpr ⟨1, hx1, rfl⟩, List.mem_map.mpr ⟨0, hy0, rfl⟩⟩
  · exact List.mem_flatten.mpr
      ⟨linspace 0 1 m, List.mem_map.mpr ⟨0, hx0, rfl⟩, hy0⟩
  · exact List.mem_flatten.mpr
      ⟨linspace 0 1 m, List.mem_map.mpr ⟨0, hx0, rfl⟩, hy1⟩

/-- C8 witness: the amended statement holds at the concrete point counts
`n = m = 2`. -/
theorem make_grid_shape_endpoints_witness :
    ((make_grid ((0, 1), 2) ((0, 1), 2)).1.length = 2 ∧
      ∀ row ∈ (make_grid ((0, 1), 2) ((0, 1), 2)).1, row.length = 2) ∧
    ((make_grid ((0, 1), 2) ((0, 1), 2)).2.length = 2 ∧
      ∀ row ∈ (make_grid ((0, 1), 2) ((0, 1), 2)).2, row.length = 2) ∧
    (((0 : ℚ) ∈ (make_grid ((0, 1), 2) ((0, 1), 2)).1.flatten ∧
      (1 : ℚ) ∈ (make_grid ((0, 1), 2) ((0, 1), 2)).1.flatten)) ∧
    (((0 : ℚ) ∈ (make_grid ((0, 1), 2) ((0, 1), 2)).2.flatten ∧
      (1 : ℚ) ∈ (make_grid ((0, 1), 2) ((0, 1), 2)).2.flatten)) :=
  make_grid_shape_endpoints 2 2 (by decide) (by decide)

/-- Modelled from the spec: the piecewise-cubic scattered-data interpolant
inside `scipy.interpolate.griddata` is external library code, not part of this
repository. It is modelled as an arbitrary interpolant: `defined` tells where
it produces a value from the sample points and values, `value` gives that
value, and `not_defined_outside` is the documented contract that strictly
outside the convex hull of the points the interpolant is undefined (scipy
produces `nan` there, which `griddata` replaces by the fill value). -/
structure CubicInterpolant where
  defined : List (ℚ × ℚ) → List ℚ → ℚ × ℚ → Bool
  value : List (ℚ × ℚ) → List ℚ → ℚ × ℚ → ℚ
  not_defined_outside : ∀ pts vals p,
    p ∉ convexHull ℚ {q : ℚ × ℚ | q ∈ pts} → defined pts vals p = false

/-- The source's call `griddata(points, values, grid, method="cubic",
fill_value=...)`: the interpolant evaluated entry-wise on the broadcast pair of
grid coordinate arrays, with `fill_value` wherever it is undefined. -/
def griddata (ci : CubicInterpolant) (points : List (ℚ × ℚ)) (values : List ℚ)
    (grid : List (List ℚ) × List (List ℚ)) (fill_value : ℚ) : List (List ℚ) :=
  List.zipWith
    (fun rowx rowy =>
      List.zipWith
        (fun xv yv =>
          if ci.defined points values (xv, yv) then ci.value points values (xv, yv)
          else fill_value)
        rowx rowy)
    grid.1 grid.2

/-- The points column pair `np.array([dataframe[keys[0]], dataframe[keys[1]]]).T`. -/
def interpPoints (keys : Keys) (df : List Row) : List (ℚ × ℚ) :=
  df.map fun r => (keys.kx r, keys.ky r)

/-- The values column `dataframe[keys[2]]`. -/
def interpValues (keys : Keys) (df : List Row) : List ℚ :=
  df.map fun r => keys.kz r

/-- The source's `interp(keys, stepsx, stepsy, dataframe)`: `griddata` of the
selected columns on `make_grid`, with the hard-coded `fill_value=0.0`. -/
def interp (ci : CubicInterpolant) (keys : Keys) (stepsx stepsy : (ℚ × ℚ) × ℕ)
    (dataframe : List Row) : List (List ℚ) :=
  griddata ci (interpPoints keys dataframe) (interpValues keys dataframe)
    (make_grid stepsx stepsy) 0

theorem getElem?_zipWith {α β γ : Type} (f : α → β → γ) :
    ∀ (l₁ : List α) (l₂ : List β) (i : ℕ),
      (List.zipWith f l₁ l₂)[i]? = l₁[i]?.bind fun a => l₂[i]?.map fun b => f a b
  | [], _, _ => by simp
  | _ :: _, [], _ => by simp
  | _ :: _, _ :: _, 0 => by simp
  | _ :: l₁, _ :: l₂, (i + 1) => by
    simpa using getElem?_zipWith f l₁ l₂ i

theorem griddata_entry (ci : CubicInterpolant) (points : List (ℚ × ℚ))
    (values : List ℚ) (fill_value : ℚ) (sx sy : (ℚ × ℚ) × ℕ) (i j : ℕ) (xi yj : ℚ)
    (hi : (linspace sx.1.1 sx.1.2 sx.2)[i]? = some xi)
    (hj : (linspace sy.1.1 sy.1.2 sy.2)[j]? = some yj) :
    ((griddata ci points values (make_grid sx sy) fill_value)[i]?.bind
        fun row => row[j]?) =
      some (if ci.defined points values (xi, yj) then
        ci.value points values (xi, yj) else fill_value) := by
  have hilen : i < (linspace sx.1.1 sx.1.2 sx.2).length :=
    (List.getElem?_eq_some.mp hi).1
  have hjlen : j < (linspace sy.1.1 sy.1.2 sy.2).length :=
    (List.getElem?_eq_some.mp hj).1
  unfold griddata make_grid
  simp [getElem?_zipWith, hi, hj, List.getElem?_replicate, hilen, hjlen,
    (List.getElem?_eq_some.mp hi).2, (List.getElem?_eq_some.mp hj).2]

/-- C6: at every grid location `(i, j)` whose coordinates lie strictly outside
the convex hull of the input points, or where the interpolant is undefined,
`interp` returns exactly 0; the fill value is the hard-coded constant 0 of
`interp`, not a parameter. -/
theorem interp_outside_hull_is_zero (ci : CubicInterpolant) (keys : Keys)
    (sx sy : (ℚ × ℚ) × ℕ) (df : List Row) (i j : ℕ) (xi yj : ℚ)
    (hi : (linspace sx.1.1 sx.1.2 sx.2)[i]? = some xi)
    (hj : (linspace sy.1.1 sy.1.2 sy.2)[j]? = some yj)
    (h : (xi, yj) ∉ convexHull ℚ {q : ℚ × ℚ | q ∈ interpPoints keys df} ∨
      ci.defined (interpPoints keys df) (interpValues keys df) (xi, yj) = false) :
    ((interp ci keys sx sy df)[i]?.bind fun row => row[j]?) = some 0 := by
  have hdef : ci.defined (interpPoints keys df) (interpValues keys df) (xi, yj)
      = false := by
    rcases h with h | h
    · exact ci.not_defined_outside _ _ _ h
    · exact h
  unfold interp
  rw [griddata_entry ci _ _ 0 sx sy i j xi yj hi hj, hdef]
  simp

/-- A concrete interpolant defined nowhere; it satisfies the modelled contract
and serves to evaluate the development on closed inputs. -/
def trivialCI : CubicInterpolant where
  defined := fun _ _ _ => false
  value := fun _ _ _ => 0
  not_defined_outside := fun _ _ _ _ => rfl

/-- C6 witness: on the 2-by-2 grid over the unit square with an empty table,
the entry at grid location (0, 0) is exactly 0. -/
theorem interp_outside_hull_is_zero_witness :
    ((interp trivialCI keysXYZ ((0, 1), 2) ((0, 1), 2) [])[0]?.bind
        fun row => row[0]?) = some 0 :=
  interp_outside_hull_is_zero trivialCI keysXYZ ((0, 1), 2) ((0, 1), 2) [] 0 0 0 0
    (by norm_num [linspace, List.range_succ]) (by norm_num [linspace, List.range_succ])
    (Or.inr rfl)

/-- The source's `maybe` decorator: a Python value that may be `None` is an
`Option`; the wrapped variadic call returns `None` when the last argument is
`None` (without consulting the wrapped function) and defers to the wrapped
function otherwise. -/
def maybe {V : Type} (func : List (Option V) → Option V)
    (args : List (Option V)) : Option V :=
  match args.getLast? with
  | some none => none
  | _ => func args

/-- C9: when the last argument is `None` the wrapped call returns `None` and
agrees with the wrap of any other function (so the wrapped function is not
invoked); when the last argument is not `None` the wrapped call is exactly the
wrapped function applied to the arguments. -/
theorem maybe_propagates_none {V : Type} (f g : List (Option V) → Option V)
    (args : List (Option V)) (v : V) :
    (args.getLast? = some none →
      maybe f args = none ∧ maybe f args = maybe g args) ∧
    (args.getLast? = some (some v) → maybe f args = f args) := by
  constructor
  · intro h
    constructor <;> simp [maybe, h]
  · intro h
    simp [maybe, h]

/-- C9 witness: the two branches evaluated on concrete one-argument lists over
the naturals. -/
theorem maybe_propagates_none_witness :
    maybe (fun _ => some (0 : ℕ)) [none] = none ∧
    maybe (fun _ => some (0 : ℕ)) [some 0] = (fun _ => some (0 : ℕ)) [some 0] :=
  ⟨((maybe_propagates_none (fun _ => some 0) (fun _ => some 1) [none] 0).1 rfl).1,
    (maybe_propagates_none (fun _ => some 0) (fun _ => some 1) [some 0] 0).2 rfl⟩

/-- The analyzer's local `cell_area` closure: the physical extent product over
a point count, `(stepsx[0][1] - stepsx[0][0]) * (stepsy[0][1] - stepsy[0][0]) / n`. -/
def cell_area (stepsx stepsy : (ℚ × ℚ) × ℕ) (n : ℕ) : ℚ :=
  (stepsx.1.2 - stepsx.1.1) * (stepsy.1.2 - stepsy.1.1) / n

/-- The analyzer's local `effective_dx` closure: `np.sqrt(cell_area(len(df)))`. -/
noncomputable def effective_dx (stepsx stepsy : (ℚ × ℚ) × ℕ) (df : List Row) : ℝ :=
  Real.sqrt (cell_area stepsx stepsy df.length)

/-- Entry-wise `x - ref` of two equally shaped 2-D arrays. -/
def matSub (A B : List (List ℚ)) : List (List ℚ) :=
  List.zipWith (fun ra rb => List.zipWith (fun a b => a - b) ra rb) A B

/-- A 2-D array read as an `m` by `n` real matrix; an absent entry reads 0. -/
def listMatrix (m n : ℕ) (A : List (List ℚ)) : Matrix (Fin m) (Fin n) ℝ :=
  Matrix.of fun i j => (((A[(i : ℕ)]?.bind fun row => row[(j : ℕ)]?).getD 0 : ℚ) : ℝ)

/-- Modelled from numpy's documentation: `np.linalg.norm(A, ord=2)` of a 2-D
array is its largest singular value, that is, the operator norm of the linear
map the matrix induces between Euclidean spaces. The computation itself is
external library code. -/
noncomputable def npNorm2 (A : List (List ℚ)) : ℝ :=
  ‖LinearMap.toContinuousLinearMap
    (Matrix.toEuclideanLin (listMatrix A.length (A.headD []).length A))‖

/-- The analyzer's local `norm` closure:
`np.linalg.norm(x - ref, ord=2) * np.sqrt(cell_area(stepsx[1] * stepsy[1]))`. -/
noncomputable def norm (stepsx stepsy : (ℚ × ℚ) × ℕ) (ref x : List (List ℚ)) : ℝ :=
  npNorm2 (matSub x ref) * Real.sqrt (cell_area stepsx stepsy (stepsx.2 * stepsy.2))

/-- The analyzer's local `clean` closure `sequence(list, tail(-1), np.array)`:
drop the first element. -/
def clean {α : Type} (l : List α) : List α := l.tail

/-- The analyzer's local `error` closure: interpolate every group of the sorted
list, compare each field against the first one (the reference), drop the first. -/
noncomputable def error (ci : CubicInterpolant) (keys : Keys)
    (stepsx stepsy : (ℚ × ℚ) × ℕ) (groups : List (List Row)) : List ℝ :=
  let fields := groups.map (interp ci keys stepsx stepsy)
  clean (fields.map fun x => norm stepsx stepsy (fields.headD []) x)

/-- The analyzer's local `dx_clean` closure: effective spacing of every group,
drop the first. -/
noncomputable def dx_clean (stepsx stepsy : (ℚ × ℚ) × ℕ)
    (groups : List (List Row)) : List ℝ :=
  clean (groups.map (effective_dx stepsx stepsy))

/-- Pandas `dataframe.groupby(dataframe.data_set)` visits the distinct group
keys in ascending order. -/
def datasets (df : List Row) : List ℕ :=
  ((df.map Row.data_set).dedup).insertionSort (· ≤ ·)

/-- The per-series list of per-resolution group tables: the source groups by
`data_set` (keys ascending), then by `sim_name`, and `merge_with(identity)`
collects, for each series, its group tables in that `data_set` order; rows keep
their original order inside a group. -/
def seriesGroupLists (df : List Row) (s : String) : List (List Row) :=
  (datasets df).filterMap fun k =>
    let g := df.filter fun r => r.data_set == k && r.sim_name == s
    if g.isEmpty then none else some g

/-- The comparison of `sorted(key=len, reverse=True)` on group tables: group
`a` comes no later than group `b` when `b` has no more rows. -/
def byRowsDesc (a b : List Row) : Prop := b.length ≤ a.length

instance : DecidableRel byRowsDesc := fun a b => Nat.decLe b.length a.length

instance : IsTotal (List Row) byRowsDesc := ⟨fun a b => Nat.le_total b.length a.length⟩

instance : IsTrans (List Row) byRowsDesc := ⟨fun _ _ _ h1 h2 => le_trans h2 h1⟩

/-- Python's `sorted(key=len, reverse=True)`: row count descending and stable.
Insertion sort with `byRowsDesc` is exactly that: an earlier element is
inserted before the later elements of equal length. -/
def sortGroups (groups : List (List Row)) : List (List Row) :=
  groups.insertionSort byRowsDesc

/-- The source's `order_of_accuracy_values_(keys, stepsx, stepsy, dataframe)`,
read at one series name: the returned mapping sends each series to the pair
`juxt((dx_clean, error))` of its row-count-descending-sorted group list. -/
noncomputable def order_of_accuracy_values_ (ci : CubicInterpolant) (keys : Keys)
    (stepsx stepsy : (ℚ × ℚ) × ℕ) (dataframe : List Row) (s : String) :
    List ℝ × List ℝ :=
  (dx_clean stepsx stepsy (sortGroups (seriesGroupLists dataframe s)),
    error ci keys stepsx stepsy (sortGroups (seriesGroupLists dataframe s)))

/-- Concrete two-resolution table for the witnesses: one series `"a"` with one
row at each of two resolution labels. -/
def dfTwo : List Row :=
  [⟨0, 0, 0, "a", 0⟩, ⟨0, 0, 0, "a", 1⟩]

/-- Concrete one-resolution table for the witnesses. -/
def dfOne : List Row := [⟨0, 0, 0, "a", 0⟩]

/-- C2: for a series with at least two resolution groups the analyzer sorts the
groups by row count descending, the sorted list is a permutation of the
grouped list, and the spacings and errors are emitted in that sorted order
with exactly the first (most-rows, reference) element dropped; each error
compares an interpolated field against the first (reference) group's
interpolated field. -/
theorem sorted_reference_dropped (ci : CubicInterpolant) (keys : Keys)
    (sx sy : (ℚ × ℚ) × ℕ) (df : List Row) (s : String)
    (h : 2 ≤ (seriesGroupLists df s).length) :
    List.Sorted byRowsDesc (sortGroups (seriesGroupLists df s)) ∧
    List.Perm (sortGroups (seriesGroupLists df s)) (seriesGroupLists df s) ∧
    (order_of_accuracy_values_ ci keys sx sy df s).1
      = ((sortGroups (seriesGroupLists df s)).map (effective_dx sx sy)).tail ∧
    (order_of_accuracy_values_ ci keys sx sy df s).2
      = ((sortGroups (seriesGroupLists df s)).map fun g =>
          norm sx sy
            (interp ci keys sx sy ((sortGroups (seriesGroupLists df s)).headD []))
            (interp ci keys sx sy g)).tail := by
  refine ⟨List.sorted_insertionSort _ _, List.perm_insertionSort _ _, rfl, ?_⟩
  cases hs : sortGroups (seriesGroupLists df s) with
  | nil => simp [order_of_accuracy_values_, error, clean, hs]
  | cons g0 gs => simp [order_of_accuracy_values_, error, clean, hs]

/-- C2 witness: the statement evaluated on the concrete two-resolution table. -/
theorem sorted_reference_dropped_witness :
    List.Sorted byRowsDesc (sortGroups (seriesGroupLists dfTwo "a")) ∧
    List.Perm (sortGroups (seriesGroupLists dfTwo "a")) (seriesGroupLists dfTwo "a") ∧
    (order_of_accuracy_values_ trivialCI keysXYZ ((0, 1), 2) ((0, 1), 2) dfTwo "a").1
      = ((sortGroups (seriesGroupLists dfTwo "a")).map
          (effective_dx ((0, 1), 2) ((0, 1), 2))).tail ∧
    (order_of_accuracy_values_ trivialCI keysXYZ ((0, 1), 2) ((0, 1), 2) dfTwo "a").2
      = ((sortGroups (seriesGroupLists dfTwo "a")).map fun g =>
          norm ((0, 1), 2) ((0, 1), 2)
            (interp trivialCI keysXYZ ((0, 1), 2) ((0, 1), 2)
              ((sortGroups (seriesGroupLists dfTwo "a")).headD []))
            (interp trivialCI keysXYZ ((0, 1), 2) ((0, 1), 2) g)).tail :=
  sorted_reference_dropped trivialCI keysXYZ ((0, 1), 2) ((0, 1), 2) dfTwo "a"
    (by decide)

/-- C3: with `N ≥ 2` distinct resolutions present in a series, both emitted
sequences have length `N - 1`. -/
theorem output_lengths (ci : CubicInterpolant) (keys : Keys)
    (sx sy : (ℚ × ℚ) × ℕ) (df : List Row) (s : String) (N : ℕ)
    (h1 : (seriesGroupLists df s).length = N) (h2 : 2 ≤ N) :
    (order_of_accuracy_values_ ci keys sx sy df s).1.length = N - 1 ∧
    (order_of_accuracy_values_ ci keys sx sy df s).2.length = N - 1 := by
  have hlen : (sortGroups (seriesGroupLists df s)).length = N := by
    rw [sortGroups, List.length_insertionSort, h1]
  constructor
  · simp [order_of_accuracy_values_, dx_clean, clean, hlen]
  · simp [order_of_accuracy_values_, error, clean, hlen]

/-- C3 witness: the concrete two-resolution table gives one spacing and one
error. -/
theorem output_lengths_witness :
    (order_of_accuracy_values_ trivialCI keysXYZ ((0, 1), 2) ((0, 1), 2)
        dfTwo "a").1.length = 2 - 1 ∧
    (order_of_accuracy_values_ trivialCI keysXYZ ((0, 1), 2) ((0, 1), 2)
        dfTwo "a").2.length = 2 - 1 :=
  output_lengths trivialCI keysXYZ ((0, 1), 2) ((0, 1), 2) dfTwo "a" 2
    (by decide) (by decide)

/-- C5: a series with exactly one resolution group raises nothing and yields
empty spacings and errors. -/
theorem single_resolution_empty_outputs (ci : CubicInterpolant) (keys : Keys)
    (sx sy : (ℚ × ℚ) × ℕ) (df : List Row) (s : String)
    (h : (seriesGroupLists df s).length = 1) :
    order_of_accuracy_values_ ci keys sx sy df s = ([], []) := by
  have hlen : (sortGroups (seriesGroupLists df s)).length = 1 := by
    rw [sortGroups, List.length_insertionSort, h]
  obtain ⟨g, hg⟩ := List.length_eq_one.mp hlen
  simp [order_of_accuracy_values_, dx_clean, error, clean, hg]

/-- C5 witness: the concrete one-resolution table yields the empty pair. -/
theorem single_resolution_empty_outputs_witness :
    order_of_accuracy_values_ trivialCI keysXYZ ((0, 1), 2) ((0, 1), 2) dfOne "a"
      = ([], []) :=
  single_resolution_empty_outputs trivialCI keysXYZ ((0, 1), 2) ((0, 1), 2)
    dfOne "a" (by decide)

/-- C4: every emitted spacing is the square root of the extent product divided
by the row count of the group it belongs to. -/
theorem spacing_formula (ci : CubicInterpolant) (keys : Keys)
    (sx sy : (ℚ × ℚ) × ℕ) (df : List Row) (s : String) (i : ℕ) (dx : ℝ)
    (h : (order_of_accuracy_values_ ci keys sx sy df s).1[i]? = some dx) :
    ∃ g, (sortGroups (seriesGroupLists df s)).tail[i]? = some g ∧
      dx = Real.sqrt
        ((((sx.1.2 - sx.1.1) * (sy.1.2 - sy.1.1) / (g.length : ℚ) : ℚ)) : ℝ) := by
  have hrw : (order_of_accuracy_values_ ci keys sx sy df s).1
      = (sortGroups (seriesGroupLists df s)).tail.map (effective_dx sx sy) := by
    simp [order_of_accuracy_values_, dx_clean, clean, List.map_tail]
  rw [hrw, List.getElem?_map] at h
  cases hg : (sortGroups (seriesGroupLists df s)).tail[i]? with
  | none => rw [hg] at h; simp at h
  | some g =>
    rw [hg] at h
    simp only [Option.map_some'] at h
    exact ⟨g, rfl, (Option.some.inj h).symm⟩

/-- C4 witness: the concrete two-resolution table's single spacing. -/
theorem spacing_formula_witness :
    ∃ g, (sortGroups (seriesGroupLists dfTwo "a")).tail[0]? = some g ∧
      effective_dx ((0, 1), 2) ((0, 1), 2) [⟨0, 0, 0, "a", 1⟩]
        = Real.sqrt ((((1 : ℚ) - 0) * ((1 : ℚ) - 0) / (g.length : ℚ) : ℚ) : ℝ) :=
  spacing_formula trivialCI keysXYZ ((0, 1), 2) ((0, 1), 2) dfTwo "a" 0
    (effective_dx ((0, 1), 2) ((0, 1), 2) [⟨0, 0, 0, "a", 1⟩]) rfl

/-- The greatest row count among a list of groups. -/
def maxRows (gs : List (List Row)) : ℕ := (gs.map List.length).foldr max 0

theorem length_le_maxRows {gs : List (List Row)} {g : List Row} (h : g ∈ gs) :
    g.length ≤ maxRows gs := by
  induction gs with
  | nil => cases h
  | cons b t ih =>
    rcases List.mem_cons.mp h with rfl | h
    · exact le_max_left _ _
    · exact le_trans (ih h) (le_max_right _ _)

theorem filter_orderedInsert_length (L : ℕ) (a : List Row) (l : List (List Row)) :
    (List.orderedInsert byRowsDesc a l).filter (fun g => g.length == L)
      = if a.length = L then a :: l.filter (fun g => g.length == L)
        else l.filter (fun g => g.length == L) := by
  induction l with
  | nil =>
    by_cases ha : a.length = L <;> simp [List.orderedInsert, List.filter_cons, ha]
  | cons b t ih =>
    rw [List.orderedInsert]
    by_cases hr : byRowsDesc a b
    · rw [if_pos hr]
      by_cases ha : a.length = L <;> simp [List.filter_cons, ha]
    · rw [if_neg hr]
      have hab : a.length < b.length := Nat.lt_of_not_le hr
      by_cases ha : a.length = L
      · have hb : ¬b.length = L := by omega
        simp [List.filter_cons, hb, ih, ha]
      · by_cases hb : b.length = L <;> simp [List.filter_cons, hb, ih, ha]

theorem filter_insertionSort_length (L : ℕ) (l : List (List Row)) :
    (List.insertionSort byRowsDesc l).filter (fun g => g.length == L)
      = l.filter (fun g => g.length == L) := by
  induction l with
  | nil => rfl
  | cons a t ih =>
    rw [List.insertionSort, filter_orderedInsert_length, ih, List.filter_cons]
    by_cases ha : a.length = L <;> simp [ha]

theorem head_insertionSort_first_max (l : List (List Row)) :
    (List.insertionSort byRowsDesc l).head?
      = l.find? (fun g => g.length == maxRows l) := by
  induction l with
  | nil => rfl
  | cons a t ih =>
    rw [List.insertionSort]
    have hmax : maxRows (a :: t) = max a.length (maxRows t) := rfl
    by_cases hc : maxRows t ≤ a.length
    · have hpa : (a.length == maxRows (a :: t)) = true := by
        rw [hmax, max_eq_left hc]
        simp
      rw [List.find?_cons_of_pos
        (p := fun g : List Row => g.length == maxRows (a :: t)) t hpa]
      cases hs : List.insertionSort byRowsDesc t with
      | nil => rfl
      | cons b u =>
        have hb : b ∈ t := by
          rw [← List.mem_insertionSort (r := byRowsDesc), hs]
          exact List.mem_cons_self _ _
        have hr : byRowsDesc a b := le_trans (length_le_maxRows hb) hc
        rw [List.orderedInsert, if_pos hr]
        rfl
    · have hlt : a.length < maxRows t := Nat.lt_of_not_le hc
      have hmax2 : maxRows (a :: t) = maxRows t := by
        rw [hmax, max_eq_right (le_of_lt hlt)]
      have hpa : (a.length == maxRows (a :: t)) = false := by
        rw [hmax2, beq_eq_false_iff_ne]
        omega
      rw [List.find?_cons_of_neg
        (p := fun g : List Row => g.length == maxRows (a :: t)) t (by simp [hpa]),
        hmax2]
      cases hs : List.insertionSort byRowsDesc t with
      | nil =>
        have ht : t = [] := by
          have h0 := List.length_insertionSort byRowsDesc t
          rw [hs] at h0
          exact List.length_eq_zero.mp h0.symm
        subst ht
        simp [maxRows] at hlt
      | cons b u =>
        have hfind : t.find? (fun g => g.length == maxRows t) = some b := by
          rw [← ih, hs]
          rfl
        have hpb : b.length = maxRows t := by
          simpa using List.find?_some hfind
        have hnr : ¬byRowsDesc a b := by
          rw [byRowsDesc, hpb]
          omega
        rw [List.orderedInsert, if_neg hnr, hfind]
        rfl

/-- C10: the row-count-descending sort is stable — the groups of any fixed row
count keep their grouping order, which lists the data_set labels ascending —
so the head of the sorted list (the dropped reference) is the first group of
maximal row count in grouping order. -/
theorem stable_sort_first_max_reference (df : List Row) (s : String) :
    (∀ L : ℕ, (sortGroups (seriesGroupLists df s)).filter (fun g => g.length == L)
        = (seriesGroupLists df s).filter (fun g => g.length == L)) ∧
    (sortGroups (seriesGroupLists df s)).head?
      = (seriesGroupLists df s).find?
          (fun g => g.length == maxRows (seriesGroupLists df s)) ∧
    List.Sorted (· ≤ ·) (datasets df) :=
  ⟨fun L => filter_insertionSort_length L _, head_insertionSort_first_max _,
    List.sorted_insertionSort _ _⟩

theorem listMatrix_zero {m n : ℕ} {A : List (List ℚ)}
    (h : ∀ row ∈ A, ∀ v ∈ row, v = 0) : listMatrix m n A = 0 := by
  ext i j
  simp only [listMatrix, Matrix.of_apply, Matrix.zero_apply]
  have h0 : (A[(i : ℕ)]?.bind fun row => row[(j : ℕ)]?).getD 0 = 0 := by
    cases hb : A[(i : ℕ)]?.bind fun row => row[(j : ℕ)]? with
    | none => rfl
    | some v =>
      obtain ⟨row, hrow, hv⟩ := Option.bind_eq_some.mp hb
      exact h row (List.getElem?_mem hrow) v (List.getElem?_mem hv)
  rw [h0, Rat.cast_zero]

theorem npNorm2_all_zero {A : List (List ℚ)}
    (h : ∀ row ∈ A, ∀ v ∈ row, v = 0) : npNorm2 A = 0 := by
  unfold npNorm2
  rw [listMatrix_zero h]
  simp

theorem matSub_self_zero (F : List (List ℚ)) :
    ∀ row ∈ matSub F F, ∀ v ∈ row, v = 0 := by
  intro row hrow v hv
  rw [matSub, List.zipWith_same] at hrow
  obtain ⟨r, _, rfl⟩ := List.mem_map.mp hrow
  rw [List.zipWith_same] at hv
  obtain ⟨a, _, rfl⟩ := List.mem_map.mp hv
  exact sub_self a

theorem norm_self_eq_zero (sx sy : (ℚ × ℚ) × ℕ) (F : List (List ℚ)) :
    norm sx sy F F = 0 := by
  unfold norm
  rw [npNorm2_all_zero (matSub_self_zero F), zero_mul]

theorem error_eq (ci : CubicInterpolant) (keys : Keys)
    (sx sy : (ℚ × ℚ) × ℕ) (groups : List (List Row)) :
    error ci keys sx sy groups
      = groups.tail.map fun g =>
          norm sx sy (interp ci keys sx sy (groups.headD []))
            (interp ci keys sx sy g) := by
  cases groups with
  | nil => rfl
  | cons g0 gs => simp [error, clean]

/-- C7: every emitted error value is non-negative, and the error entry is 0
whenever its group's interpolated field equals the reference (first sorted)
group's interpolated field at every grid point. -/
theorem error_nonneg_and_zero_on_equal (ci : CubicInterpolant) (keys : Keys)
    (sx sy : (ℚ × ℚ) × ℕ) (df : List Row) (s : String) :
    (∀ e ∈ (order_of_accuracy_values_ ci keys sx sy df s).2, 0 ≤ e) ∧
    (∀ (i : ℕ) (g : List Row),
      (sortGroups (seriesGroupLists df s)).tail[i]? = some g →
      interp ci keys sx sy g
        = interp ci keys sx sy ((sortGroups (seriesGroupLists df s)).headD []) →
      (order_of_accuracy_values_ ci keys sx sy df s).2[i]? = some (0 : ℝ)) := by
  have herr : (order_of_accuracy_values_ ci keys sx sy df s).2
      = (sortGroups (seriesGroupLists df s)).tail.map fun g =>
          norm sx sy
            (interp ci keys sx sy ((sortGroups (seriesGroupLists df s)).headD []))
            (interp ci keys sx sy g) := error_eq ci keys sx sy _
  constructor
  · intro e he
    rw [herr] at he
    obtain ⟨g, _, rfl⟩ := List.mem_map.mp he
    unfold norm npNorm2
    exact mul_nonneg (norm_nonneg _) (Real.sqrt_nonneg _)
  · intro i g hg heq
    rw [herr]
    simp only [List.getElem?_map, hg, Option.map_some']
    rw [heq, norm_self_eq_zero]

/-- C7 witness: with the nowhere-defined interpolant the two one-row groups
interpolate to the same field, and the single emitted error is exactly 0. -/
theorem error_nonneg_and_zero_on_equal_witness :
    (order_of_accuracy_values_ trivialCI keysXYZ ((0, 1), 2) ((0, 1), 2)
        dfTwo "a").2[0]? = some (0 : ℝ) :=
  (error_nonneg_and_zero_on_equal trivialCI keysXYZ ((0, 1), 2) ((0, 1), 2)
      dfTwo "a").2 0 [⟨0, 0, 0, "a", 1⟩] rfl rfl

/-- The norm the spec describes, written from its words: the Euclidean (L2)
norm of the element-wise entries of a 2-D array, the square root of the sum of
the squared entries. -/
noncomputable def elementwiseL2 (A : List (List ℚ)) : ℝ :=
  Real.sqrt (((A.flatten.map fun v => v * v).sum : ℚ) : ℝ)

/-- A concrete instance of the modelled scipy interpolant, used for the C1
divergence computation: it is defined exactly at the sample points (hence
inside their convex hull, satisfying the contract), and its value there
depends only on the sample point set. -/
def cornersCI : CubicInterpolant where
  defined := fun pts _ p => decide (p ∈ pts)
  value := fun pts _ p => if pts.length = 4 ∧ p.1 = p.2 then 1 else 0
  not_defined_outside := fun pts _ p hp =>
    decide_eq_false fun hmem => hp (subset_convexHull ℚ _ hmem)

/-- The reference (most rows) group of the C1 table: the four corners of the
unit square plus one extra sample, field value 0 everywhere. -/
def refGroupC1 : List Row :=
  [⟨0, 0, 0, "a", 0⟩, ⟨0, 1, 0, "a", 0⟩, ⟨1, 0, 0, "a", 0⟩, ⟨1, 1, 0, "a", 0⟩,
    ⟨2, 0, 0, "a", 0⟩]

/-- The non-reference group of the C1 table: the four corners of the unit
square, field value 1 on the diagonal corners. -/
def coarseGroupC1 : List Row :=
  [⟨0, 0, 1, "a", 1⟩, ⟨0, 1, 0, "a", 1⟩, ⟨1, 0, 0, "a", 1⟩, ⟨1, 1, 1, "a", 1⟩]

/-- The C1 table: one series at two resolutions. -/
def dfC1 : List Row := refGroupC1 ++ coarseGroupC1

theorem sort_dfC1 : sortGroups (seriesGroupLists dfC1 "a")
    = [refGroupC1, coarseGroupC1] := by
  decide

theorem grid_two : make_grid ((0, 1), 2) ((0, 1), 2)
    = ([[0, 0], [1, 1]], [[0, 1], [0, 1]]) := by
  norm_num [make_grid, linspace, List.range_succ]

theorem interp_ref : interp cornersCI keysXYZ ((0, 1), 2) ((0, 1), 2) refGroupC1
    = [[0, 0], [0, 0]] := by
  rw [interp, grid_two]
  norm_num [griddata, cornersCI, interpPoints, interpValues, keysXYZ, refGroupC1,
    List.zipWith, Prod.ext_iff]

theorem interp_coarse :
    interp cornersCI keysXYZ ((0, 1), 2) ((0, 1), 2) coarseGroupC1
      = [[1, 0], [0, 1]] := by
  rw [interp, grid_two]
  norm_num [griddata, cornersCI, interpPoints, interpValues, keysXYZ,
    coarseGroupC1, List.zipWith, Prod.ext_iff]

theorem listMatrix_identity :
    listMatrix 2 2 [[(1 : ℚ), 0], [0, 1]] = (1 : Matrix (Fin 2) (Fin 2) ℝ) := by
  ext i j
  fin_cases i <;> fin_cases j <;>
    simp [listMatrix, Matrix.one_apply]

theorem npNorm2_identity : npNorm2 [[(1 : ℚ), 0], [0, 1]] = 1 := by
  show ‖LinearMap.toContinuousLinearMap
    (Matrix.toEuclideanLin (listMatrix 2 2 [[(1 : ℚ), 0], [0, 1]]))‖ = 1
  rw [listMatrix_identity]
  have h1 : Matrix.toEuclideanLin (1 : Matrix (Fin 2) (Fin 2) ℝ)
      = LinearMap.id := by
    apply LinearMap.ext
    intro v
    rw [Matrix.toEuclideanLin_apply]
    simp [Matrix.one_mulVec]
  rw [h1]
  have h2 : LinearMap.toContinuousLinearMap
      (LinearMap.id : EuclideanSpace ℝ (Fin 2) →ₗ[ℝ] EuclideanSpace ℝ (Fin 2))
      = ContinuousLinearMap.id ℝ (EuclideanSpace ℝ (Fin 2)) := by
    ext v
    rfl
  rw [h2]
  exact ContinuousLinearMap.norm_id

theorem matSub_C1 :
    matSub (interp cornersCI keysXYZ ((0, 1), 2) ((0, 1), 2) coarseGroupC1)
        (interp cornersCI keysXYZ ((0, 1), 2) ((0, 1), 2) refGroupC1)
      = [[(1 : ℚ), 0], [0, 1]] := by
  rw [interp_ref, interp_coarse]
  norm_num [matSub, List.zipWith]

theorem errors_C1 :
    (order_of_accuracy_values_ cornersCI keysXYZ ((0, 1), 2) ((0, 1), 2)
        dfC1 "a").2
      = [Real.sqrt (((1 : ℚ)/4 : ℚ) : ℝ)] := by
  have h := error_eq cornersCI keysXYZ ((0, 1), 2) ((0, 1), 2)
    (sortGroups (seriesGroupLists dfC1 "a"))
  show error cornersCI keysXYZ ((0, 1), 2) ((0, 1), 2)
      (sortGroups (seriesGroupLists dfC1 "a")) = _
  rw [h, sort_dfC1]
  show [norm ((0, 1), 2) ((0, 1), 2)
      (interp cornersCI keysXYZ ((0, 1), 2) ((0, 1), 2) refGroupC1)
      (interp cornersCI keysXYZ ((0, 1), 2) ((0, 1), 2) coarseGroupC1)] = _
  rw [norm, matSub_C1, npNorm2_identity, one_mul]
  have hca : cell_area ((0, 1), 2) ((0, 1), 2) (2 * 2) = (1 : ℚ)/4 := by
    norm_num [cell_area]
  rw [hca]

theorem elementwiseL2_identity : elementwiseL2 [[(1 : ℚ), 0], [0, 1]]
    = Real.sqrt 2 := by
  norm_num [elementwiseL2]

theorem claim_value_differs :
    elementwiseL2 [[(1 : ℚ), 0], [0, 1]] * Real.sqrt (((1 : ℚ)/4 : ℚ) : ℝ)
      ≠ Real.sqrt (((1 : ℚ)/4 : ℚ) : ℝ) := by
  rw [elementwiseL2_identity]
  have hc : (((1 : ℚ)/4 : ℚ) : ℝ) = 1/4 := by norm_num
  rw [hc]
  have h14 : Real.sqrt ((1 : ℝ)/4) = 1/2 := by
    rw [show (1 : ℝ)/4 = (1/2)^2 by norm_num, Real.sqrt_sq (by norm_num)]
  rw [h14]
  intro h
  have h2 : Real.sqrt 2 = 1 := by linarith
  have h3 := Real.sq_sqrt (by norm_num : (0 : ℝ) ≤ 2)
  rw [h2] at h3
  norm_num at h3

/-- C1: the analyzer multiplies `sqrt(cell_area)` by
`np.linalg.norm(x - ref, ord=2)`, which on a 2-D array is the spectral norm
(largest singular value) of the difference field, not its element-wise
Euclidean (L2) norm. On this concrete series the interpolated difference
field is the 2-by-2 identity matrix: the emitted error is
`1 * sqrt(cell_area) = sqrt(1/4)`, while the element-wise Euclidean norm of
the difference times `sqrt(cell_area)` is `sqrt 2 * sqrt(1/4)`, a different
value. -/
theorem error_is_spectral_not_elementwise :
    matSub (interp cornersCI keysXYZ ((0, 1), 2) ((0, 1), 2) coarseGroupC1)
        (interp cornersCI keysXYZ ((0, 1), 2) ((0, 1), 2) refGroupC1)
      = [[(1 : ℚ), 0], [0, 1]] ∧
    (order_of_accuracy_values_ cornersCI keysXYZ ((0, 1), 2) ((0, 1), 2)
        dfC1 "a").2
      = [Real.sqrt (((1 : ℚ)/4 : ℚ) : ℝ)] ∧
    elementwiseL2 [[(1 : ℚ), 0], [0, 1]] * Real.sqrt (((1 : ℚ)/4 : ℚ) : ℝ)
      ≠ Real.sqrt (((1 : ℚ)/4 : ℚ) : ℝ) :=
  ⟨matSub_C1, errors_C1, claim_value_differs⟩

end PFHub
